import Mathlib

/-!
Verification of the MDD-BrainState-Energy brain-state pipeline
(`src/Brain_State_Analysis/`): the dominant-state classifier
(`tr_net_labels`), the label-set harmonizer (Limbic exclusion and
post-hoc reject-state stripping), the state-map aggregator, and the
temporal-dynamics metrics engine (`calculate_dynamics_for_group`:
fractional occupancy, dwell time, appearance rate, transition
probabilities).

Real-valued activity is modelled over `ℚ`; a floating NaN is modelled
as `none` in `Option ℚ` where the code tests for NaN.  A timepoint
dataframe is a list of `(network_id, value)` rows; a label sequence is
a `List ℤ` (numpy integer labels).
-/

/-! ### Dominant-State Classifier (`tr_net_labels`) -/

/-- Rows of the timepoint dataframe belonging to network `i`
(`df[df['network_id'] == i]['value']`). -/
def netRows (df : List (ℕ × ℚ)) (i : ℕ) : List ℚ :=
  (df.filter (fun p => decide (p.1 = i))).map Prod.snd

/-- Mean of the values of network `i` (`.mean()`), as sum / count. -/
def netMean (df : List (ℕ × ℚ)) (i : ℕ) : ℚ :=
  (netRows df i).sum / (netRows df i).length

/-- Index of the first maximum of a list (`np.argmax`): position 0 if the
head is `≥` every later element, else one past the argmax of the tail. -/
def argmaxIdx : List ℚ → ℕ
  | [] => 0
  | x :: xs => if ∀ y ∈ xs, y ≤ x then 0 else argmaxIdx xs + 1

/-- The list `net_means` built by the loop `for i in range(1, nlabels)`. -/
def net_means (df : List (ℕ × ℚ)) (nlabels : ℕ) : List ℚ :=
  (List.range (nlabels - 1)).map (fun k => netMean df (k + 1))

/-- Shallow embedding of `tr_net_labels(df, nlabels, activity_thr)` from
`extract_brain_states.py` / `extract_brain_states_noLIM.py`. -/
def tr_net_labels (df : List (ℕ × ℚ)) (nlabels : ℕ) (activity_thr : ℚ) : ℕ :=
  let means := net_means df nlabels
  let idx := argmaxIdx means
  if activity_thr ≤ means.getD idx 0 then idx + 1 else nlabels

/-! ### Temporal-Dynamics Metrics Engine (`calculate_dynamics_for_group`)

A subject's label sequence `time_labels` is a `List ℤ`; `T` is the
configured `total_timepoints` parameter, `K` is `n_states`, `tr` the TR
duration in seconds. -/

/-- Fractional occupancy vector:
`[np.sum(time_labels == i) for i in range(1, n_states+1)] / total_timepoints`. -/
def fo (time_labels : List ℤ) (K T : ℕ) : List ℚ :=
  (List.range K).map (fun (k : ℕ) => ((time_labels.count ((k : ℤ) + 1) : ℕ) : ℚ) / (T : ℚ))

/-- Change points `np.where(np.diff(time_labels) != 0)[0] + 1`: positions
`t+1` with `time_labels[t] ≠ time_labels[t+1]`. -/
def changePoints (time_labels : List ℤ) : List ℕ :=
  ((List.range (time_labels.length - 1)).filter
    (fun t => decide (time_labels.getD t 0 ≠ time_labels.getD (t + 1) 0))).map (· + 1)

/-- Block start indices `np.insert(change_points, 0, 0)`. -/
def block_starts (time_labels : List ℤ) : List ℕ :=
  0 :: changePoints time_labels

/-- Block end indices `np.append(change_points, total_timepoints)`. -/
def block_ends (time_labels : List ℤ) (T : ℕ) : List ℕ :=
  changePoints time_labels ++ [T]

/-- Elementwise `block_ends - block_starts`. -/
def block_lengths (time_labels : List ℤ) (T : ℕ) : List ℕ :=
  List.zipWith (fun e s => e - s) (block_ends time_labels T) (block_starts time_labels)

/-- The 0-based state of each block, `time_labels[block_starts] - 1`. -/
def block_states (time_labels : List ℤ) : List ℤ :=
  (block_starts time_labels).map (fun t => time_labels.getD t 0 - 1)

/-- Lengths of the blocks of 0-based state `i`
(`block_lengths[block_states == i]`). -/
def stateBlockLengths (time_labels : List ℤ) (T i : ℕ) : List ℕ :=
  (((block_lengths time_labels T).zip (block_states time_labels)).filter
    (fun p => decide (p.2 = (i : ℤ)))).map Prod.fst

/-- Scan length in minutes, `(total_timepoints * tr_duration_s) / 60.0`. -/
def scan_length_min (T : ℕ) (tr : ℚ) : ℚ := ((T : ℚ) * tr) / 60

/-- Dwell time of 0-based state `i`: mean block length times TR, or 0 when
the state has no blocks. -/
def dt_subject (time_labels : List ℤ) (T : ℕ) (tr : ℚ) (i : ℕ) : ℚ :=
  let L := stateBlockLengths time_labels T i
  if 0 < L.length then ((L.map (fun (n : ℕ) => (n : ℚ))).sum / (L.length : ℚ)) * tr else 0

/-- Appearance rate of 0-based state `i`: number of blocks divided by the
scan length in minutes, or 0 when the state has no blocks. -/
def ar_subject (time_labels : List ℤ) (T : ℕ) (tr : ℚ) (i : ℕ) : ℚ :=
  let L := stateBlockLengths time_labels T i
  if 0 < L.length then (L.length : ℚ) / scan_length_min T tr else 0

/-- Transition count `tp_matrix[i, j]`: the loop
`for t in range(total_timepoints - 1)` counts `t` with
`time_labels[t] = i+1` and `time_labels[t+1] = j+1` (the code's 0-based
in-range check `0 <= from_state < n_states` is subsumed by the exact
match for `i, j < n_states`). -/
def tpCount (time_labels : List ℤ) (T : ℕ) (i j : ℕ) : ℕ :=
  (List.range (T - 1)).countP
    (fun t => decide (time_labels.getD t 0 = (i : ℤ) + 1 ∧
      time_labels.getD (t + 1) 0 = (j : ℤ) + 1))

/-- Row sum `tp_matrix.sum(axis=1)` of row `i`. -/
def rowSum (time_labels : List ℤ) (T K i : ℕ) : ℕ :=
  ((List.range K).map (fun j => tpCount time_labels T i j)).sum

/-- Self-inclusive transition probability `tp2d[i, j]`:
`np.divide(tp_matrix, row_sums, out=zeros, where=row_sums != 0)`. -/
def tp2d (time_labels : List ℤ) (T K i j : ℕ) : ℚ :=
  if rowSum time_labels T K i ≠ 0 then
    (tpCount time_labels T i j : ℚ) / (rowSum time_labels T K i : ℚ)
  else 0

/-- Count matrix with the diagonal zeroed
(`np.fill_diagonal(tp_nopersist, 0)`). -/
def tpCountNP (time_labels : List ℤ) (T : ℕ) (i j : ℕ) : ℕ :=
  if i = j then 0 else tpCount time_labels T i j

/-- Row sum of the diagonal-zeroed count matrix. -/
def rowSumNP (time_labels : List ℤ) (T K i : ℕ) : ℕ :=
  ((List.range K).map (fun j => tpCountNP time_labels T i j)).sum

/-- Self-exclusive transition probability `tp2d_nopersist[i, j]`, with the
same guarded division. -/
def tp2dNP (time_labels : List ℤ) (T K i j : ℕ) : ℚ :=
  if rowSumNP time_labels T K i ≠ 0 then
    (tpCountNP time_labels T i j : ℚ) / (rowSumNP time_labels T K i : ℚ)
  else 0

/-- Adjacent-pair transition count over the actual sequence; the spec's
formulation "over all T−1 adjacent pairs" of the loaded sequence. -/
def tpCountPairs (time_labels : List ℤ) (i j : ℕ) : ℕ :=
  (time_labels.zip time_labels.tail).countP
    (fun p => decide (p.1 = (i : ℤ) + 1 ∧ p.2 = (j : ℤ) + 1))

/-- In-bounds condition for the transition-count loop: every access
`time_labels[t]` and `time_labels[t+1]` made by
`for t in range(total_timepoints - 1)` is a valid index. -/
def trLoopInBounds (time_labels : List ℤ) (T : ℕ) : Prop :=
  ∀ t, t < T - 1 → t + 1 < time_labels.length

/-! ### Group stacking and the post-hoc reject-state alignment -/

/-- Dwell-time vector of one subject (`dt_subject` over `range(n_states)`). -/
def dt_vec (time_labels : List ℤ) (T : ℕ) (tr : ℚ) (K : ℕ) : List ℚ :=
  (List.range K).map (fun i => dt_subject time_labels T tr i)

/-- Appearance-rate vector of one subject. -/
def ar_vec (time_labels : List ℤ) (T : ℕ) (tr : ℚ) (K : ℕ) : List ℚ :=
  (List.range K).map (fun i => ar_subject time_labels T tr i)

/-- Self-inclusive transition-probability matrix of one subject as rows. -/
def tpMat (time_labels : List ℤ) (T K : ℕ) : List (List ℚ) :=
  (List.range K).map (fun i => (List.range K).map (fun j => tp2d time_labels T K i j))

/-- Self-exclusive transition-probability matrix of one subject as rows. -/
def tpMatNP (time_labels : List ℤ) (T K : ℕ) : List (List ℚ) :=
  (List.range K).map (fun i => (List.range K).map (fun j => tp2dNP time_labels T K i j))

/-- Transpose of a stacked (subjects × K) list of per-subject vectors into
the returned (K × subjects) layout (`np.stack(...).T`). -/
def transposeL (m : List (List ℚ)) (K : ℕ) : List (List ℚ) :=
  (List.range K).map (fun i => m.map (fun row => row.getD i 0))

/-- Group fractional-occupancy array, shape (states, subjects). -/
def foGroup (subs : List (List ℤ)) (K T : ℕ) : List (List ℚ) :=
  transposeL (subs.map (fun l => fo l K T)) K

/-- Group dwell-time array, shape (states, subjects). -/
def dtGroup (subs : List (List ℤ)) (K T : ℕ) (tr : ℚ) : List (List ℚ) :=
  transposeL (subs.map (fun l => dt_vec l T tr K)) K

/-- Group appearance-rate array, shape (states, subjects). -/
def arGroup (subs : List (List ℤ)) (K T : ℕ) (tr : ℚ) : List (List ℚ) :=
  transposeL (subs.map (fun l => ar_vec l T tr K)) K

/-- Group self-inclusive transition tensor, shape (subjects, states, states)
(`np.stack(tp_list)`, not transposed). -/
def tpGroup (subs : List (List ℤ)) (K T : ℕ) : List (List (List ℚ)) :=
  subs.map (fun l => tpMat l T K)

/-- Group self-exclusive transition tensor, shape (subjects, states, states). -/
def tpGroupNP (subs : List (List ℤ)) (K T : ℕ) : List (List (List ℚ)) :=
  subs.map (fun l => tpMatNP l T K)

/-- The `A[:-1, :]` slice on a (states, subjects) array: drop the last
state row. -/
def sliceLastRow (m : List (List ℚ)) : List (List ℚ) := m.dropLast

/-- The `[:-1, :-1]` slice of one subject's matrix: drop the last row and
the last column. -/
def sliceLastRowCol (m : List (List ℚ)) : List (List ℚ) :=
  m.dropLast.map List.dropLast

/-- The `A[:, :-1, :-1]` slice on a (subjects, states, states) tensor. -/
def sliceTensor (t : List (List (List ℚ))) : List (List (List ℚ)) :=
  t.map sliceLastRowCol

/-! ### Label-Set Harmonizer (`extract_brain_states_noLIM.py`) -/

/-- The configured network label list of the unfiltered pipeline. -/
def original_labels : List String :=
  ["Vis", "SomMot", "DorsAttn", "VentAttn", "Limbic", "Frontoparietal", "Default", "NOTA"]

/-- The excluded network's 1-based identifier,
`original_labels.index('Limbic') + 1`. -/
def limbic_id : ℕ := original_labels.indexOf "Limbic" + 1

/-- Surviving label list, `[label for label in original_labels if label != 'Limbic']`. -/
def noLIM_labels : List String :=
  original_labels.filter (fun l => decide (l ≠ "Limbic"))

/-- Number of labels (6 surviving networks + NOTA) in the harmonized
configuration; the reject identifier of the noLIM classifier. -/
def noLIM_nlabels : ℕ := noLIM_labels.length

/-- An atlas table as (ROI, network_id) rows. -/
def filterAtlas (atlas : List (ℕ × ℕ)) (ex : ℕ) : List (ℕ × ℕ) :=
  atlas.filter (fun p => decide (p.2 ≠ ex))

/-- Sorted distinct network ids, `sorted(atlas_order['network_id'].unique())`:
the naturals up to the maximum that occur in the column. -/
def sortedUniqueIds (atlas : List (ℕ × ℕ)) : List ℕ :=
  (List.range ((atlas.map Prod.snd).foldr max 0 + 1)).filter
    (fun i => (atlas.map Prod.snd).contains i)

/-- The renumbering `{old_id: new_id for new_id, old_id in enumerate(unique_old_ids, 1)}`. -/
def old_to_new_id_map (ids : List ℕ) (old : ℕ) : ℕ := ids.indexOf old + 1

/-- The remapped atlas: Limbic rows dropped, surviving `network_id`s sent
through `old_to_new_id_map`. -/
def remapAtlas (atlas : List (ℕ × ℕ)) (ex : ℕ) : List (ℕ × ℕ) :=
  (filterAtlas atlas ex).map
    (fun p => (p.1, old_to_new_id_map (sortedUniqueIds (filterAtlas atlas ex)) p.2))

/-! ### State-Map Aggregator (`state_masks` loop)

A NaN activity value is `none : Option ℚ`; `np.isnan` is `Option.isNone`. -/

/-- Boolean mask `time_labels == lab_idx + 1` for 1-based state `s`. -/
def mask_of (time_labels : List ℤ) (s : ℕ) : List Bool :=
  time_labels.map (fun x => decide (x = (s : ℤ)))

/-- Rows of the activity matrix selected by a mask (`ttss[mask]`). -/
def maskedRows (ttss : List (List (Option ℚ))) (mask : List Bool) :
    List (List (Option ℚ)) :=
  ((ttss.zip mask).filter (fun p => p.2)).map Prod.fst

/-- Column mean over a set of rows (`np.mean(..., axis=0)` at column `r`):
NaN as soon as one entry is NaN, else the rational average. -/
def colMean (rows : List (List (Option ℚ))) (r : ℕ) : Option ℚ :=
  let vals := rows.map (fun row => row.getD r none)
  if vals.any (fun v => v.isNone) then none
  else some ((vals.map (fun v => v.getD 0)).sum / (vals.length : ℚ))

/-- Mean state map of one state: column means over the masked rows when the
state occurs, `np.zeros(curr_n_rois)` otherwise. -/
def state_mean (ttss : List (List (Option ℚ))) (mask : List Bool) (R : ℕ) :
    List (Option ℚ) :=
  if 0 < mask.count true then (List.range R).map (colMean (maskedRows ttss mask))
  else List.replicate R (some 0)

/-- The `np.all(np.isnan(state_mean))` test. -/
def allNaN (v : List (Option ℚ)) : Bool := v.all (fun x => x.isNone)

/-- Per-subject rows appended by `extract_brain_states_noLIM.py`: a state
map is stored only when it is not entirely NaN. -/
def subjectTable_noLIM (ttss : List (List (Option ℚ))) (time_labels : List ℤ)
    (labels : List String) (R : ℕ) : List (String × List (Option ℚ)) :=
  labels.enum.filterMap (fun p =>
    let sm := state_mean ttss (mask_of time_labels (p.1 + 1)) R
    if allNaN sm then none else some (p.2, sm))

/-- Per-subject rows appended by `extract_brain_states.py`: every state map
is stored, with no NaN guard. -/
def subjectTable_LIM (ttss : List (List (Option ℚ))) (time_labels : List ℤ)
    (labels : List String) (R : ℕ) : List (String × List (Option ℚ)) :=
  labels.enum.map (fun p =>
    (p.2, state_mean ttss (mask_of time_labels (p.1 + 1)) R))

/-! ## Theorems -/

theorem argmaxIdx_lt_length (l : List ℚ) (hl : l ≠ []) : argmaxIdx l < l.length := by
  induction l with
  | nil => exact absurd rfl hl
  | cons x xs ih =>
    by_cases h : ∀ y ∈ xs, y ≤ x
    · simp only [argmaxIdx, if_pos h, List.length_cons]
      omega
    · have hxs : xs ≠ [] := by
        intro he; exact h (by simp [he])
      have := ih hxs
      simp only [argmaxIdx, if_neg h, List.length_cons]
      omega

theorem argmaxIdx_max (l : List ℚ) (j : ℕ) (hj : j < l.length) :
    l.getD j 0 ≤ l.getD (argmaxIdx l) 0 := by
  induction l generalizing j with
  | nil => simp at hj
  | cons x xs ih =>
    by_cases h : ∀ y ∈ xs, y ≤ x
    · simp only [argmaxIdx, if_pos h]
      cases j with
      | zero => simp
      | succ k =>
        simp only [List.getD_cons_succ, List.getD_cons_zero]
        have hk : k < xs.length := by simpa using hj
        exact h _ (by rw [List.getD_eq_getElem xs 0 hk]; exact List.getElem_mem hk)
    · have hxs : xs ≠ [] := fun he => h (by simp [he])
      simp only [argmaxIdx, if_neg h, List.getD_cons_succ]
      cases j with
      | zero =>
        simp only [List.getD_cons_zero]
        obtain ⟨y, hy, hxy⟩ := by
          push_neg at h; exact h
        obtain ⟨k, hk, hky⟩ := List.mem_iff_getElem.mp hy
        have := ih k hk
        rw [List.getD_eq_getElem xs 0 hk, hky] at this
        exact le_of_lt (lt_of_lt_of_le hxy this)
      | succ k =>
        exact ih k (by simpa using hj)

theorem argmaxIdx_first (l : List ℚ) (j : ℕ) (hj : j < argmaxIdx l) :
    l.getD j 0 < l.getD (argmaxIdx l) 0 := by
  induction l generalizing j with
  | nil => simp [argmaxIdx] at hj
  | cons x xs ih =>
    by_cases h : ∀ y ∈ xs, y ≤ x
    · simp [argmaxIdx, if_pos h] at hj
    · have hxs : xs ≠ [] := fun he => h (by simp [he])
      simp only [argmaxIdx, if_neg h] at hj ⊢
      simp only [List.getD_cons_succ]
      cases j with
      | zero =>
        simp only [List.getD_cons_zero]
        obtain ⟨y, hy, hxy⟩ := by
          push_neg at h; exact h
        obtain ⟨k, hk, hky⟩ := List.mem_iff_getElem.mp hy
        have := argmaxIdx_max xs k hk
        rw [List.getD_eq_getElem xs 0 hk, hky] at this
        exact lt_of_lt_of_le hxy this
      | succ k =>
        exact ih k (by omega)

theorem net_means_length (df : List (ℕ × ℚ)) (nlabels : ℕ) :
    (net_means df nlabels).length = nlabels - 1 := by
  simp [net_means]

theorem net_means_getD (df : List (ℕ × ℚ)) (nlabels k : ℕ) (hk : k < nlabels - 1) :
    (net_means df nlabels).getD k 0 = netMean df (k + 1) := by
  rw [net_means, List.getD_eq_getElem _ _ (by simpa using hk)]
  simp

/-- C1: for every timepoint dataframe, `nlabels ≥ 2` and threshold,
`tr_net_labels` either returns the 1-based identifier `k` of the non-reject
network (`1 ≤ k < nlabels`) whose mean activity is maximal — first in label
order when tied, with that maximum `≥` the threshold — or, when no
network's mean reaches the threshold, returns the reject identifier
`nlabels`.  (The hypothesis `hne` records that every non-reject network
has at least one region, the domain on which the Python mean is a real
number rather than NaN.) -/
theorem tr_net_labels_correct (df : List (ℕ × ℚ)) (nlabels : ℕ) (activity_thr : ℚ)
    (h2 : 2 ≤ nlabels) (hne : ∀ i, 1 ≤ i → i < nlabels → netRows df i ≠ []) :
    (∃ k, 1 ≤ k ∧ k < nlabels ∧ tr_net_labels df nlabels activity_thr = k ∧
      activity_thr ≤ netMean df k ∧
      (∀ j, 1 ≤ j → j < nlabels → netMean df j ≤ netMean df k) ∧
      (∀ j, 1 ≤ j → j < k → netMean df j < netMean df k)) ∨
    (tr_net_labels df nlabels activity_thr = nlabels ∧
      ∀ j, 1 ≤ j → j < nlabels → netMean df j < activity_thr) := by
  have hlen : (net_means df nlabels).length = nlabels - 1 := net_means_length df nlabels
  have hnenil : net_means df nlabels ≠ [] := by
    intro he
    rw [he] at hlen
    simp at hlen
    omega
  have hidx : argmaxIdx (net_means df nlabels) < nlabels - 1 := by
    have := argmaxIdx_lt_length _ hnenil
    omega
  set means := net_means df nlabels with hmeans
  set idx := argmaxIdx means with hidxdef
  have hmean_idx : means.getD idx 0 = netMean df (idx + 1) := net_means_getD df nlabels idx hidx
  by_cases hthr : activity_thr ≤ means.getD idx 0
  · left
    refine ⟨idx + 1, by omega, by omega, ?_, ?_, ?_, ?_⟩
    · simp only [tr_net_labels]
      rw [← hmeans, ← hidxdef, if_pos hthr]
    · rw [← hmean_idx]; exact hthr
    · intro j hj1 hj2
      have hjlt : j - 1 < nlabels - 1 := by omega
      have := argmaxIdx_max means (j - 1) (by omega)
      rw [net_means_getD df nlabels (j - 1) hjlt] at this
      have hj : j - 1 + 1 = j := by omega
      rw [hj] at this
      rw [hmean_idx] at this
      exact this
    · intro j hj1 hjk
      have hjlt : j - 1 < idx := by omega
      have := argmaxIdx_first means (j - 1) hjlt
      rw [net_means_getD df nlabels (j - 1) (by omega)] at this
      have hj : j - 1 + 1 = j := by omega
      rw [hj] at this
      rw [hmean_idx] at this
      exact this
  · right
    constructor
    · simp only [tr_net_labels]
      rw [← hmeans, ← hidxdef, if_neg hthr]
    · intro j hj1 hj2
      have hjlt : j - 1 < nlabels - 1 := by omega
      have hle := argmaxIdx_max means (j - 1) (by omega)
      rw [net_means_getD df nlabels (j - 1) hjlt] at hle
      have hj : j - 1 + 1 = j := by omega
      rw [hj] at hle
      have : means.getD idx 0 < activity_thr := lt_of_not_le hthr
      exact lt_of_le_of_lt hle this

theorem list_sum_map_div {α : Type} (l : List α) (f : α → ℚ) (c : ℚ) :
    (l.map (fun x => f x / c)).sum = (l.map f).sum / c := by
  induction l with
  | nil => simp
  | cons x xs ih => simp [ih, add_div]

theorem countP_inRange_succ (l : List ℤ) (K : ℕ) :
    l.countP (fun x => decide (1 ≤ x ∧ x ≤ (K : ℤ) + 1)) =
    l.countP (fun x => decide (1 ≤ x ∧ x ≤ (K : ℤ))) + l.count ((K : ℤ) + 1) := by
  induction l with
  | nil => simp
  | cons x xs ih =>
    simp only [List.countP_cons, List.count_cons, ih, decide_eq_true_eq, beq_iff_eq]
    split_ifs <;> omega

theorem sum_count_range (l : List ℤ) (K : ℕ) :
    ((List.range K).map (fun (k : ℕ) => l.count ((k : ℤ) + 1))).sum =
    l.countP (fun x => decide (1 ≤ x ∧ x ≤ (K : ℤ))) := by
  induction K with
  | zero =>
    simp only [List.range_zero, List.map_nil, List.sum_nil]
    symm
    apply List.countP_eq_zero.mpr
    intro x _
    simp only [decide_eq_true_eq, Nat.cast_zero]
    omega
  | succ K ih =>
    rw [List.range_succ, List.map_append, List.sum_append]
    simp only [List.map_cons, List.map_nil, List.sum_cons, List.sum_nil, add_zero]
    rw [ih]
    have hcast : ((K + 1 : ℕ) : ℤ) = (K : ℤ) + 1 := by push_cast; ring
    rw [hcast, countP_inRange_succ]

/-- C2: the fractional-occupancy vector has one entry per state
`i ∈ [1,K]`, each equal to (count of timepoints labeled `i`) / T; the K
values sum to 1 minus the fraction of timepoints whose label lies outside
`[1,K]`, hence to exactly 1 when every label is in `[1,K]`. -/
theorem fo_correct (time_labels : List ℤ) (K T : ℕ) (hT : 0 < T)
    (hlen : time_labels.length = T) :
    (fo time_labels K T).length = K ∧
    (∀ i, i < K → (fo time_labels K T).getD i 0 =
      ((time_labels.count ((i : ℤ) + 1) : ℕ) : ℚ) / (T : ℚ)) ∧
    (fo time_labels K T).sum =
      1 - ((time_labels.countP (fun x => decide (¬(1 ≤ x ∧ x ≤ (K : ℤ)))) : ℕ) : ℚ) / (T : ℚ) ∧
    ((∀ x ∈ time_labels, 1 ≤ x ∧ x ≤ (K : ℤ)) → (fo time_labels K T).sum = 1) := by
  have hT0 : (T : ℚ) ≠ 0 := by positivity
  have hsum : (fo time_labels K T).sum =
      1 - ((time_labels.countP (fun x => decide (¬(1 ≤ x ∧ x ≤ (K : ℤ)))) : ℕ) : ℚ) / (T : ℚ) := by
    rw [fo, list_sum_map_div]
    have hmap : (List.range K).map (fun (k : ℕ) => ((time_labels.count ((k : ℤ) + 1) : ℕ) : ℚ)) =
        ((List.range K).map (fun (k : ℕ) => time_labels.count ((k : ℤ) + 1))).map
          (fun n : ℕ => (n : ℚ)) := by
      rw [List.map_map]; rfl
    rw [hmap, ← Nat.cast_list_sum, sum_count_range]
    have hpart := List.length_eq_countP_add_countP
      (fun x : ℤ => decide (1 ≤ x ∧ x ≤ (K : ℤ))) time_labels
    have hnot : time_labels.countP
        (fun a => decide ¬(decide (1 ≤ a ∧ a ≤ (K : ℤ)) = true)) =
        time_labels.countP (fun x => decide (¬(1 ≤ x ∧ x ≤ (K : ℤ)))) := by
      apply List.countP_congr
      intro x _
      simp
    rw [hnot] at hpart
    have hin : (time_labels.countP (fun x => decide (1 ≤ x ∧ x ≤ (K : ℤ))) : ℚ) =
        (T : ℚ) - (time_labels.countP (fun x => decide (¬(1 ≤ x ∧ x ≤ (K : ℤ)))) : ℚ) := by
      have : time_labels.countP (fun x => decide (1 ≤ x ∧ x ≤ (K : ℤ))) +
          time_labels.countP (fun x => decide (¬(1 ≤ x ∧ x ≤ (K : ℤ)))) = T := by
        omega
      push_cast [← this]
      ring
    rw [hin]
    field_simp
  refine ⟨by simp [fo], ?_, hsum, ?_⟩
  · intro i hi
    rw [fo, List.getD_eq_getElem _ _ (by simpa using hi)]
    simp
  · intro hclean
    rw [hsum]
    have : time_labels.countP (fun x => decide (¬(1 ≤ x ∧ x ≤ (K : ℤ)))) = 0 := by
      apply List.countP_eq_zero.mpr
      intro x hx
      simpa using hclean x hx
    rw [this]
    simp

/-- Witness for C2: the clean sequence `[1,2,1]` with `K = 2`, `T = 3`. -/
theorem fo_correct_witness :
    (fo [1, 2, 1] 2 3).length = 2 ∧
    (∀ i, i < 2 → (fo [1, 2, 1] 2 3).getD i 0 =
      ((([1, 2, 1] : List ℤ).count ((i : ℤ) + 1) : ℕ) : ℚ) / (3 : ℚ)) ∧
    (fo [1, 2, 1] 2 3).sum =
      1 - ((([1, 2, 1] : List ℤ).countP (fun x => decide (¬(1 ≤ x ∧ x ≤ (2 : ℤ)))) : ℕ) : ℚ) / (3 : ℚ) ∧
    ((∀ x ∈ ([1, 2, 1] : List ℤ), 1 ≤ x ∧ x ≤ (2 : ℤ)) → (fo [1, 2, 1] 2 3).sum = 1) :=
  fo_correct [1, 2, 1] 2 3 (by norm_num) (by decide)

theorem list_sum_cast_nat (l : List ℕ) :
    ((l.map (fun n : ℕ => (n : ℚ))).sum) = ((l.sum : ℕ) : ℚ) := by
  rw [Nat.cast_list_sum]

theorem tp2d_row (time_labels : List ℤ) (T K i : ℕ)
    (h : rowSum time_labels T K i ≠ 0) :
    ((List.range K).map (fun j => tp2d time_labels T K i j)).sum = 1 := by
  have hmap : (List.range K).map (fun j => tp2d time_labels T K i j) =
      (List.range K).map (fun j =>
        ((tpCount time_labels T i j : ℕ) : ℚ) / ((rowSum time_labels T K i : ℕ) : ℚ)) := by
    apply List.map_congr_left
    intro j _
    simp [tp2d, h]
  rw [hmap, list_sum_map_div]
  have hcast : (List.range K).map
      (fun j => ((tpCount time_labels T i j : ℕ) : ℚ)) =
      ((List.range K).map (fun j => tpCount time_labels T i j)).map (fun n : ℕ => (n : ℚ)) := by
    rw [List.map_map]; rfl
  rw [hcast, list_sum_cast_nat]
  have : (((List.range K).map (fun j => tpCount time_labels T i j)).sum : ℚ) =
      ((rowSum time_labels T K i : ℕ) : ℚ) := by rw [rowSum]
  rw [this]
  exact div_self (by exact_mod_cast h)

theorem tp2dNP_row (time_labels : List ℤ) (T K i : ℕ)
    (h : rowSumNP time_labels T K i ≠ 0) :
    ((List.range K).map (fun j => tp2dNP time_labels T K i j)).sum = 1 := by
  have hmap : (List.range K).map (fun j => tp2dNP time_labels T K i j) =
      (List.range K).map (fun j =>
        ((tpCountNP time_labels T i j : ℕ) : ℚ) / ((rowSumNP time_labels T K i : ℕ) : ℚ)) := by
    apply List.map_congr_left
    intro j _
    simp [tp2dNP, h]
  rw [hmap, list_sum_map_div]
  have hcast : (List.range K).map
      (fun j => ((tpCountNP time_labels T i j : ℕ) : ℚ)) =
      ((List.range K).map (fun j => tpCountNP time_labels T i j)).map (fun n : ℕ => (n : ℚ)) := by
    rw [List.map_map]; rfl
  rw [hcast, list_sum_cast_nat]
  have : (((List.range K).map (fun j => tpCountNP time_labels T i j)).sum : ℚ) =
      ((rowSumNP time_labels T K i : ℕ) : ℚ) := by rw [rowSumNP]
  rw [this]
  exact div_self (by exact_mod_cast h)

/-- C3: each row of the self-inclusive and of the self-exclusive
transition-probability matrix either sums to 1 (when the count row has a
nonzero sum) or is entirely zero; the zero-denominator case yields zeros
by the guarded division, not NaN or an error. -/
theorem tp_rows_stochastic_or_zero (time_labels : List ℤ) (T K i : ℕ)
    (hi : i < K) :
    ((rowSum time_labels T K i ≠ 0 ∧
        ((List.range K).map (fun j => tp2d time_labels T K i j)).sum = 1) ∨
      (rowSum time_labels T K i = 0 ∧ ∀ j, tp2d time_labels T K i j = 0)) ∧
    ((rowSumNP time_labels T K i ≠ 0 ∧
        ((List.range K).map (fun j => tp2dNP time_labels T K i j)).sum = 1) ∨
      (rowSumNP time_labels T K i = 0 ∧ ∀ j, tp2dNP time_labels T K i j = 0)) := by
  constructor
  · by_cases h : rowSum time_labels T K i = 0
    · exact Or.inr ⟨h, fun j => by simp [tp2d, h]⟩
    · exact Or.inl ⟨h, tp2d_row time_labels T K i h⟩
  · by_cases h : rowSumNP time_labels T K i = 0
    · exact Or.inr ⟨h, fun j => by simp [tp2dNP, h]⟩
    · exact Or.inl ⟨h, tp2dNP_row time_labels T K i h⟩

/-- Witness for C3: row 0 of the matrices of `[1,2,1]` with `K = 2`, `T = 3`. -/
theorem tp_rows_stochastic_or_zero_witness :
    ((rowSum [1, 2, 1] 3 2 0 ≠ 0 ∧
        ((List.range 2).map (fun j => tp2d [1, 2, 1] 3 2 0 j)).sum = 1) ∨
      (rowSum [1, 2, 1] 3 2 0 = 0 ∧ ∀ j, tp2d [1, 2, 1] 3 2 0 j = 0)) ∧
    ((rowSumNP [1, 2, 1] 3 2 0 ≠ 0 ∧
        ((List.range 2).map (fun j => tp2dNP [1, 2, 1] 3 2 0 j)).sum = 1) ∨
      (rowSumNP [1, 2, 1] 3 2 0 = 0 ∧ ∀ j, tp2dNP [1, 2, 1] 3 2 0 j = 0)) :=
  tp_rows_stochastic_or_zero [1, 2, 1] 3 2 0 (by norm_num)

/-- C8: every diagonal entry of the self-exclusive transition-probability
matrix is 0, because the diagonal of the count matrix is zeroed before the
row-normalization. -/
theorem tp2dNP_diag_zero (time_labels : List ℤ) (T K i : ℕ) :
    tp2dNP time_labels T K i i = 0 := by
  simp [tp2dNP, tpCountNP]

theorem mem_block_starts_lt (time_labels : List ℤ) (t : ℕ)
    (hne : time_labels ≠ []) (ht : t ∈ block_starts time_labels) :
    t < time_labels.length := by
  have hpos : 0 < time_labels.length := List.length_pos.mpr hne
  simp only [block_starts] at ht
  rcases List.mem_cons.mp ht with h0 | hcp
  · omega
  · simp only [changePoints] at hcp
    obtain ⟨t', ht', rfl⟩ := List.mem_map.mp hcp
    have h1 := List.mem_filter.mp ht'
    have h2 := List.mem_range.mp h1.1
    omega

theorem stateBlockLengths_of_absent (time_labels : List ℤ) (T i : ℕ)
    (hne : time_labels ≠ []) (habs : time_labels.count ((i : ℤ) + 1) = 0) :
    stateBlockLengths time_labels T i = [] := by
  rw [stateBlockLengths]
  have hfil : ((block_lengths time_labels T).zip (block_states time_labels)).filter
      (fun p => decide (p.2 = (i : ℤ))) = [] := by
    apply List.filter_eq_nil_iff.mpr
    intro p hp
    simp only [decide_eq_true_eq]
    intro hpi
    have hmem : p.2 ∈ block_states time_labels := (List.of_mem_zip hp).2
    rw [block_states] at hmem
    obtain ⟨t, ht, hval⟩ := List.mem_map.mp hmem
    have htl : t < time_labels.length := mem_block_starts_lt time_labels t hne ht
    have hlab : time_labels.getD t 0 = (i : ℤ) + 1 := by
      have : time_labels.getD t 0 - 1 = (i : ℤ) := by rw [hval, hpi]
      omega
    have hmem' : ((i : ℤ) + 1) ∈ time_labels := by
      rw [← hlab]
      rw [List.getD_eq_getElem time_labels 0 htl]
      exact List.getElem_mem htl
    exact (List.count_pos_iff.mpr hmem').ne' habs
  rw [hfil]
  rfl

theorem tpCount_row_of_absent (time_labels : List ℤ) (T i j : ℕ)
    (hlen : time_labels.length = T) (habs : time_labels.count ((i : ℤ) + 1) = 0) :
    tpCount time_labels T i j = 0 := by
  rw [tpCount]
  apply List.countP_eq_zero.mpr
  intro t ht
  simp only [decide_eq_true_eq, not_and]
  intro hfrom
  exfalso
  have htl : t < time_labels.length := by
    have := List.mem_range.mp ht
    omega
  have hmem : ((i : ℤ) + 1) ∈ time_labels := by
    rw [← hfrom, List.getD_eq_getElem time_labels 0 htl]
    exact List.getElem_mem htl
  exact (List.count_pos_iff.mpr hmem).ne' habs

/-- C6: a state `i` (0-based, 1-based label `i+1`) with zero occurrences in
the label sequence has dwell time 0, appearance rate 0, and an all-zero row
in both transition-probability matrices; all four values are exact zeros,
with no NaN and no exception. -/
theorem absent_state_all_zero (time_labels : List ℤ) (T K : ℕ) (tr : ℚ) (i : ℕ)
    (hlen : time_labels.length = T) (hT : 0 < T) (hi : i < K)
    (habs : time_labels.count ((i : ℤ) + 1) = 0) :
    dt_subject time_labels T tr i = 0 ∧ ar_subject time_labels T tr i = 0 ∧
    (∀ j, tp2d time_labels T K i j = 0) ∧
    (∀ j, tp2dNP time_labels T K i j = 0) := by
  have hne : time_labels ≠ [] := by
    intro he
    rw [he] at hlen
    simp at hlen
    omega
  have hsbl : stateBlockLengths time_labels T i = [] :=
    stateBlockLengths_of_absent time_labels T i hne habs
  have hrow : ∀ j, tpCount time_labels T i j = 0 :=
    fun j => tpCount_row_of_absent time_labels T i j hlen habs
  have hrs : rowSum time_labels T K i = 0 := by
    rw [rowSum]
    apply List.sum_eq_zero
    intro x hx
    obtain ⟨j, _, rfl⟩ := List.mem_map.mp hx
    exact hrow j
  have hrsNP : rowSumNP time_labels T K i = 0 := by
    rw [rowSumNP]
    apply List.sum_eq_zero
    intro x hx
    obtain ⟨j, _, rfl⟩ := List.mem_map.mp hx
    rw [tpCountNP]
    split
    · rfl
    · exact hrow j
  refine ⟨?_, ?_, ?_, ?_⟩
  · rw [dt_subject, hsbl]
    simp
  · rw [ar_subject, hsbl]
    simp
  · intro j
    simp [tp2d, hrs]
  · intro j
    simp [tp2dNP, hrsNP]

/-- Witness for C6: state 2 (label 3) never occurs in `[1,2,1]`, `K = 3`. -/
theorem absent_state_all_zero_witness :
    dt_subject [1, 2, 1] 3 1 2 = 0 ∧ ar_subject [1, 2, 1] 3 1 2 = 0 ∧
    (∀ j, tp2d [1, 2, 1] 3 3 2 j = 0) ∧
    (∀ j, tp2dNP [1, 2, 1] 3 3 2 j = 0) :=
  absent_state_all_zero [1, 2, 1] 3 3 1 2 (by decide) (by norm_num) (by norm_num)
    (by decide)

/-- C7, counterexample: for the sequence `[1,1,1,2,2,1]` with sampling
interval 1 s and `T = 6`, the dwell time of state 2 (0-based index 1) is
2 seconds — its only block `[3,5)` has length 2 — not 1 second as the
claim states. -/
theorem scenario1_dwell_state2_not_one :
    dt_subject [1, 1, 1, 2, 2, 1] 6 1 1 = 2 ∧ (2 : ℚ) ≠ 1 := by
  have h1 : stateBlockLengths [1, 1, 1, 2, 2, 1] 6 1 = [2] := by decide
  constructor
  · norm_num [dt_subject, h1]
  · norm_num

/-- C7, amended: for `[1,1,1,2,2,1]`, `K = 2`, interval 1 s, `T = 6`:
fractional occupancy is `[4/6, 2/6]`; the block decomposition has starts
`[0,3,5]`, ends `[3,5,6]` and 0-based states `[0,1,0]` (runs `[0,3)` of
state 1, `[3,5)` of state 2, `[5,6)` of state 1); dwell time is 2 s for
state 1 (mean of block lengths 3 and 1) and 2 s for state 2 (single block
of length 2); the appearance rate divides the block counts 2 and 1 by the
scan length `6/60` minutes. -/
theorem scenario1_amended :
    fo [1, 1, 1, 2, 2, 1] 2 6 = [4 / 6, 2 / 6] ∧
    block_starts [1, 1, 1, 2, 2, 1] = [0, 3, 5] ∧
    block_ends [1, 1, 1, 2, 2, 1] 6 = [3, 5, 6] ∧
    block_states [1, 1, 1, 2, 2, 1] = [0, 1, 0] ∧
    dt_subject [1, 1, 1, 2, 2, 1] 6 1 0 = 2 ∧
    dt_subject [1, 1, 1, 2, 2, 1] 6 1 1 = 2 ∧
    ar_subject [1, 1, 1, 2, 2, 1] 6 1 0 = 2 / (6 / 60) ∧
    ar_subject [1, 1, 1, 2, 2, 1] 6 1 1 = 1 / (6 / 60) := by
  have h0 : stateBlockLengths [1, 1, 1, 2, 2, 1] 6 0 = [3, 1] := by decide
  have h1 : stateBlockLengths [1, 1, 1, 2, 2, 1] 6 1 = [2] := by decide
  have hc1 : ([1, 1, 1, 2, 2, 1] : List ℤ).count 1 = 4 := by decide
  have hc2 : ([1, 1, 1, 2, 2, 1] : List ℤ).count 2 = 2 := by decide
  refine ⟨?_, by decide, by decide, by decide, ?_, ?_, ?_, ?_⟩
  · norm_num [fo, List.range_succ, hc1, hc2]
  · norm_num [dt_subject, h0]
  · norm_num [dt_subject, h1]
  · norm_num [ar_subject, h0, scan_length_min]
  · norm_num [ar_subject, h1, scan_length_min]

theorem tpCount_eq_pairs (time_labels : List ℤ) (i j : ℕ) :
    tpCount time_labels time_labels.length i j = tpCountPairs time_labels i j := by
  induction time_labels with
  | nil => rfl
  | cons x ys ih =>
    cases ys with
    | nil => rfl
    | cons y xs =>
      have hlen : (x :: y :: xs : List ℤ).length - 1 = xs.length + 1 := by simp
      rw [tpCount, hlen, List.range_succ_eq_map, List.countP_cons, List.countP_map]
      have hzip : (x :: y :: xs : List ℤ).zip (x :: y :: xs : List ℤ).tail =
          (x, y) :: ((y :: xs).zip (y :: xs : List ℤ).tail) := rfl
      rw [tpCountPairs, hzip, List.countP_cons]
      have ih' := ih
      rw [tpCount, tpCountPairs] at ih'
      simp only [List.length_cons, Nat.add_sub_cancel] at ih'
      congr 1

/-- C10: the transition-count loop `for t in range(total_timepoints - 1)`
reads positions `t` and `t+1`; when `2 ≤ T` and the loaded sequence is
shorter than the configured `total_timepoints`, some access is out of
bounds, so `calculate_dynamics_for_group` is not total there.  When the
lengths agree, every access is in bounds, the occupancy denominator is the
actual sequence length, the final block end is the actual sequence length,
and the transition counts are exactly the counts over the `T-1` adjacent
pairs of the sequence. -/
theorem dynamics_length_precondition (time_labels : List ℤ) (K T : ℕ) :
    ((2 ≤ T ∧ time_labels.length < T) → ¬ trLoopInBounds time_labels T) ∧
    (time_labels.length = T →
      trLoopInBounds time_labels T ∧
      fo time_labels K T = (List.range K).map
        (fun (k : ℕ) => ((time_labels.count ((k : ℤ) + 1) : ℕ) : ℚ) /
          (time_labels.length : ℚ)) ∧
      block_ends time_labels T = changePoints time_labels ++ [time_labels.length] ∧
      (∀ i j, tpCount time_labels T i j = tpCountPairs time_labels i j)) := by
  constructor
  · rintro ⟨h2, hshort⟩ hbound
    have := hbound (T - 2) (by omega)
    omega
  · intro hlen
    refine ⟨fun t ht => by omega, ?_, ?_, ?_⟩
    · rw [hlen]
      rfl
    · rw [hlen]
      rfl
    · intro i j
      rw [← hlen]
      exact tpCount_eq_pairs time_labels i j

/-- Witness for C10: the loop bound fails on a 1-element sequence with
`T = 3`, and the pair-count agreement holds on `[1,1,2]` with `T = 3`. -/
theorem dynamics_length_precondition_witness :
    ¬ trLoopInBounds [1] 3 ∧
    tpCount [1, 1, 2] 3 0 0 = tpCountPairs [1, 1, 2] 0 0 := by
  constructor
  · exact (dynamics_length_precondition [1] 2 3).1 (by constructor <;> norm_num)
  · exact ((dynamics_length_precondition [1, 1, 2] 2 3).2 (by decide)).2.2.2 0 0

theorem getD_dropLast {α : Type} (m : List α) (d : α) (i : ℕ) (h : i + 1 < m.length) :
    m.dropLast.getD i d = m.getD i d := by
  rw [List.getD_eq_getElem _ _ (by rw [List.length_dropLast]; omega),
    List.getD_eq_getElem _ _ (by omega)]
  exact List.getElem_dropLast m i _

theorem getD_map_lt {α β : Type} (l : List α) (f : α → β) (s : ℕ) (h : s < l.length)
    (d : α) (d' : β) : (l.map f).getD s d' = f (l.getD s d) := by
  rw [List.getD_eq_getElem _ _ (by simpa using h), List.getD_eq_getElem _ _ h]
  simp

theorem transposeL_length (m : List (List ℚ)) (K : ℕ) : (transposeL m K).length = K := by
  simp [transposeL]

theorem transposeL_getD (m : List (List ℚ)) (K i : ℕ) (h : i < K) :
    (transposeL m K).getD i [] = m.map (fun row => row.getD i 0) := by
  rw [transposeL, List.getD_eq_getElem _ _ (by simpa using h)]
  simp

theorem tpMat_length (time_labels : List ℤ) (T K : ℕ) : (tpMat time_labels T K).length = K := by
  simp [tpMat]

theorem tpMatNP_length (time_labels : List ℤ) (T K : ℕ) :
    (tpMatNP time_labels T K).length = K := by
  simp [tpMatNP]

theorem tpMat_row_length (time_labels : List ℤ) (T K i : ℕ) (h : i < K) :
    ((tpMat time_labels T K).getD i []).length = K := by
  rw [tpMat, getD_map_lt _ _ _ (by simpa using h) 0]
  simp

theorem tpMatNP_row_length (time_labels : List ℤ) (T K i : ℕ) (h : i < K) :
    ((tpMatNP time_labels T K).getD i []).length = K := by
  rw [tpMatNP, getD_map_lt _ _ _ (by simpa using h) 0]
  simp

theorem sliceLastRowCol_entry (m : List (List ℚ)) (i j : ℕ)
    (hi : i + 1 < m.length) (hj : j + 1 < (m.getD i []).length) :
    (sliceLastRowCol m).getD i [] = (m.getD i []).dropLast ∧
    ((sliceLastRowCol m).getD i []).getD j 0 = (m.getD i []).getD j 0 := by
  have hrow : (sliceLastRowCol m).getD i [] = (m.getD i []).dropLast := by
    rw [sliceLastRowCol, getD_map_lt _ _ _ (by rw [List.length_dropLast]; omega) []]
    rw [getD_dropLast m [] i hi]
  exact ⟨hrow, by rw [hrow, getD_dropLast _ 0 j hj]⟩

/-- C5: the `thr_0` post-hoc alignment removes exactly the last state.
The sliced occupancy/dwell/appearance arrays are the stacked
(state, subject)-ordered originals restricted to the first `K-1` state
rows, each retained row unchanged and one column per subject; the sliced
transition tensors keep one `(K-1)×(K-1)` matrix per subject, equal to
the original matrix with its last row and last column removed, every
retained entry unchanged. -/
theorem reject_strip_alignment (subs : List (List ℤ)) (K T : ℕ) (tr : ℚ)
    (hK : 0 < K) :
    (sliceLastRow (foGroup subs K T)).length = K - 1 ∧
    (sliceLastRow (dtGroup subs K T tr)).length = K - 1 ∧
    (sliceLastRow (arGroup subs K T tr)).length = K - 1 ∧
    (∀ i, i + 1 < K →
      (sliceLastRow (foGroup subs K T)).getD i [] = (foGroup subs K T).getD i [] ∧
      (sliceLastRow (dtGroup subs K T tr)).getD i [] = (dtGroup subs K T tr).getD i [] ∧
      (sliceLastRow (arGroup subs K T tr)).getD i [] = (arGroup subs K T tr).getD i [] ∧
      ((sliceLastRow (foGroup subs K T)).getD i []).length = subs.length) ∧
    (sliceTensor (tpGroup subs K T)).length = subs.length ∧
    (sliceTensor (tpGroupNP subs K T)).length = subs.length ∧
    (∀ s, s < subs.length →
      ((sliceTensor (tpGroup subs K T)).getD s []).length = K - 1 ∧
      ((sliceTensor (tpGroupNP subs K T)).getD s []).length = K - 1 ∧
      (∀ i, i + 1 < K →
        (((sliceTensor (tpGroup subs K T)).getD s []).getD i []).length = K - 1 ∧
        (((sliceTensor (tpGroupNP subs K T)).getD s []).getD i []).length = K - 1 ∧
        (∀ j, j + 1 < K →
          (((sliceTensor (tpGroup subs K T)).getD s []).getD i []).getD j 0 =
            (((tpGroup subs K T).getD s []).getD i []).getD j 0 ∧
          (((sliceTensor (tpGroupNP subs K T)).getD s []).getD i []).getD j 0 =
            (((tpGroupNP subs K T).getD s []).getD i []).getD j 0))) := by
  have hfoLen : (foGroup subs K T).length = K := transposeL_length _ K
  have hdtLen : (dtGroup subs K T tr).length = K := transposeL_length _ K
  have harLen : (arGroup subs K T tr).length = K := transposeL_length _ K
  refine ⟨?_, ?_, ?_, ?_, ?_, ?_, ?_⟩
  · rw [sliceLastRow, List.length_dropLast, hfoLen]
  · rw [sliceLastRow, List.length_dropLast, hdtLen]
  · rw [sliceLastRow, List.length_dropLast, harLen]
  · intro i hi
    have h1 : i + 1 < (foGroup subs K T).length := by rw [hfoLen]; omega
    have h2 : i + 1 < (dtGroup subs K T tr).length := by rw [hdtLen]; omega
    have h3 : i + 1 < (arGroup subs K T tr).length := by rw [harLen]; omega
    refine ⟨by rw [sliceLastRow]; exact getD_dropLast _ [] i h1,
      by rw [sliceLastRow]; exact getD_dropLast _ [] i h2,
      by rw [sliceLastRow]; exact getD_dropLast _ [] i h3, ?_⟩
    rw [sliceLastRow, getD_dropLast _ [] i h1, foGroup, transposeL_getD _ K i (by omega)]
    simp
  · rw [sliceTensor, List.length_map, tpGroup, List.length_map]
  · rw [sliceTensor, List.length_map, tpGroupNP, List.length_map]
  · intro s hs
    have hGlen : s < (tpGroup subs K T).length := by
      simpa [tpGroup] using hs
    have hGlenNP : s < (tpGroupNP subs K T).length := by
      simpa [tpGroupNP] using hs
    have hA2 : (tpGroup subs K T).getD s [] = tpMat (subs.getD s []) T K := by
      simp only [tpGroup]
      exact getD_map_lt _ _ _ hs [] []
    have hB2 : (tpGroupNP subs K T).getD s [] = tpMatNP (subs.getD s []) T K := by
      simp only [tpGroupNP]
      exact getD_map_lt _ _ _ hs [] []
    have hsA : (sliceTensor (tpGroup subs K T)).getD s [] =
        sliceLastRowCol (tpMat (subs.getD s []) T K) := by
      rw [sliceTensor, getD_map_lt _ _ _ hGlen [] [], hA2]
    have hsB : (sliceTensor (tpGroupNP subs K T)).getD s [] =
        sliceLastRowCol (tpMatNP (subs.getD s []) T K) := by
      rw [sliceTensor, getD_map_lt _ _ _ hGlenNP [] [], hB2]
    refine ⟨?_, ?_, ?_⟩
    · rw [hsA, sliceLastRowCol, List.length_map, List.length_dropLast, tpMat_length]
    · rw [hsB, sliceLastRowCol, List.length_map, List.length_dropLast, tpMatNP_length]
    · intro i hi
      have hiA : i + 1 < (tpMat (subs.getD s []) T K).length := by
        rw [tpMat_length]; omega
      have hiB : i + 1 < (tpMatNP (subs.getD s []) T K).length := by
        rw [tpMatNP_length]; omega
      refine ⟨?_, ?_, ?_⟩
      · rw [hsA, (sliceLastRowCol_entry _ i 0 hiA (by rw [tpMat_row_length _ _ _ _ (by omega)]; omega)).1,
          List.length_dropLast, tpMat_row_length _ _ _ _ (by omega)]
      · rw [hsB, (sliceLastRowCol_entry _ i 0 hiB (by rw [tpMatNP_row_length _ _ _ _ (by omega)]; omega)).1,
          List.length_dropLast, tpMatNP_row_length _ _ _ _ (by omega)]
      · intro j hj
        constructor
        · rw [hsA, hA2]
          exact (sliceLastRowCol_entry _ i j hiA
            (by rw [tpMat_row_length _ _ _ _ (by omega)]; omega)).2
        · rw [hsB, hB2]
          exact (sliceLastRowCol_entry _ i j hiB
            (by rw [tpMatNP_row_length _ _ _ _ (by omega)]; omega)).2

/-- Witness for C5: one subject, `K = 2`: the sliced occupancy array keeps
one state row and the sliced tensor keeps one subject matrix. -/
theorem reject_strip_alignment_witness :
    (sliceLastRow (foGroup [[1, 2]] 2 2)).length = 1 ∧
    (sliceTensor (tpGroup [[1, 2]] 2 2)).length = 1 := by
  have h := reject_strip_alignment [[1, 2]] 2 2 1 (by norm_num)
  exact ⟨h.1, h.2.2.2.2.1⟩

theorem le_foldr_max (l : List ℕ) (x : ℕ) (h : x ∈ l) : x ≤ l.foldr max 0 := by
  induction l with
  | nil => simp at h
  | cons a as ih =>
    simp only [List.foldr_cons]
    rcases List.mem_cons.mp h with rfl | h'
    · exact le_max_left _ _
    · exact le_trans (ih h') (le_max_right _ _)

theorem foldr_max_le (l : List ℕ) (b : ℕ) (h : ∀ x ∈ l, x ≤ b) : l.foldr max 0 ≤ b := by
  induction l with
  | nil => simp
  | cons a as ih =>
    simp only [List.foldr_cons]
    exact max_le (h a (by simp)) (ih (fun x hx => h x (List.mem_cons_of_mem _ hx)))

/-- C4: for any 7-network atlas (every `network_id` in `[1,7]`, every
network populated), excluding the named Limbic network (id
`original_labels.index('Limbic') + 1 = 5`) re-derives the Region→Network
map: the sorted surviving ids are `[1,2,3,4,6,7]`; no region of the
filtered map points to the excluded network; the remapped ids are
contiguous identifiers `1..6`, each attained, with the survivors' relative
order preserved; and the reject identifier (the length of the surviving
label list, NOTA last) becomes 7. -/
theorem noLIM_renumbering (atlas : List (ℕ × ℕ))
    (H1 : ∀ p ∈ atlas, 1 ≤ p.2 ∧ p.2 ≤ 7)
    (H2 : ∀ i < 8, 1 ≤ i → ∃ p ∈ atlas, p.2 = i) :
    limbic_id = 5 ∧
    sortedUniqueIds (filterAtlas atlas limbic_id) = [1, 2, 3, 4, 6, 7] ∧
    (∀ p ∈ filterAtlas atlas limbic_id, p.2 ≠ limbic_id) ∧
    (∀ p ∈ remapAtlas atlas limbic_id, 1 ≤ p.2 ∧ p.2 ≤ 6) ∧
    (∀ j, 1 ≤ j → j ≤ 6 → ∃ p ∈ remapAtlas atlas limbic_id, p.2 = j) ∧
    (∀ p ∈ filterAtlas atlas limbic_id, ∀ q ∈ filterAtlas atlas limbic_id,
      p.2 < q.2 →
      old_to_new_id_map (sortedUniqueIds (filterAtlas atlas limbic_id)) p.2 <
        old_to_new_id_map (sortedUniqueIds (filterAtlas atlas limbic_id)) q.2) ∧
    noLIM_nlabels = 7 := by
  have hlimbic : limbic_id = 5 := by decide
  rw [hlimbic]
  have hmemS : ∀ i : ℕ, i ∈ (filterAtlas atlas 5).map Prod.snd ↔
      ((∃ p ∈ atlas, p.2 = i) ∧ i ≠ 5) := by
    intro i
    constructor
    · intro hi
      obtain ⟨p, hpf, rfl⟩ := List.mem_map.mp hi
      have hf := List.mem_filter.mp hpf
      refine ⟨⟨p, hf.1, rfl⟩, ?_⟩
      simpa using hf.2
    · rintro ⟨⟨p, hpa, rfl⟩, hne⟩
      exact List.mem_map.mpr ⟨p, List.mem_filter.mpr ⟨hpa, by simpa using hne⟩, rfl⟩
  have hmem_codes : ∀ i : ℕ, 1 ≤ i → i ≤ 7 → i ≠ 5 →
      i ∈ (filterAtlas atlas 5).map Prod.snd := by
    intro i h1 h7 hne
    exact (hmemS i).mpr ⟨H2 i (by omega) h1, hne⟩
  have hS_sub : ∀ o ∈ (filterAtlas atlas 5).map Prod.snd,
      o ∈ ([1, 2, 3, 4, 6, 7] : List ℕ) := by
    intro o ho
    obtain ⟨⟨p, hpa, rfl⟩, hne⟩ := (hmemS o).mp ho
    have hb' := H1 p hpa
    have hdec : ∀ o' : ℕ, o' < 8 → 1 ≤ o' → o' ≠ 5 →
        o' ∈ ([1, 2, 3, 4, 6, 7] : List ℕ) := by decide
    exact hdec p.2 (by omega) (by omega) hne
  have hb : ∀ x ∈ (filterAtlas atlas 5).map Prod.snd, x ≤ 7 := by
    intro x hx
    obtain ⟨⟨p, hpa, rfl⟩, -⟩ := (hmemS x).mp hx
    exact (H1 p hpa).2
  have hmax : ((filterAtlas atlas 5).map Prod.snd).foldr max 0 = 7 :=
    le_antisymm (foldr_max_le _ _ hb)
      (le_foldr_max _ 7 (hmem_codes 7 (by omega) (by omega) (by omega)))
  have hn0 : (0 : ℕ) ∉ (filterAtlas atlas 5).map Prod.snd := fun h => by
    obtain ⟨⟨p, hpa, h0⟩, -⟩ := (hmemS 0).mp h
    have := (H1 p hpa).1
    omega
  have hn5 : (5 : ℕ) ∉ (filterAtlas atlas 5).map Prod.snd :=
    fun h => ((hmemS 5).mp h).2 rfl
  have hm1 := hmem_codes 1 (by omega) (by omega) (by omega)
  have hm2 := hmem_codes 2 (by omega) (by omega) (by omega)
  have hm3 := hmem_codes 3 (by omega) (by omega) (by omega)
  have hm4 := hmem_codes 4 (by omega) (by omega) (by omega)
  have hm6 := hmem_codes 6 (by omega) (by omega) (by omega)
  have hm7 := hmem_codes 7 (by omega) (by omega) (by omega)
  have hids : sortedUniqueIds (filterAtlas atlas 5) = [1, 2, 3, 4, 6, 7] := by
    simp only [sortedUniqueIds]
    rw [hmax]
    have hr : List.range (7 + 1) = [0, 1, 2, 3, 4, 5, 6, 7] := by decide
    rw [hr]
    simp [List.filter_cons, hm1, hm2, hm3, hm4, hm6, hm7, hn0, hn5]
  have hnew_bounds : ∀ o ∈ ([1, 2, 3, 4, 6, 7] : List ℕ),
      1 ≤ ([1, 2, 3, 4, 6, 7] : List ℕ).indexOf o + 1 ∧
      ([1, 2, 3, 4, 6, 7] : List ℕ).indexOf o + 1 ≤ 6 := by decide
  refine ⟨rfl, hids, ?_, ?_, ?_, ?_, by decide⟩
  · intro p hp
    have hf := List.mem_filter.mp hp
    simpa using hf.2
  · intro p hp
    simp only [remapAtlas, hlimbic] at hp
    obtain ⟨q, hqf, rfl⟩ := List.mem_map.mp hp
    have hq2 : q.2 ∈ ([1, 2, 3, 4, 6, 7] : List ℕ) :=
      hS_sub q.2 (List.mem_map.mpr ⟨q, hqf, rfl⟩)
    simp only [old_to_new_id_map, hids]
    exact hnew_bounds q.2 hq2
  · intro j hj1 hj6
    have hsurj : ∀ j' < 7, 1 ≤ j' → ∃ o ∈ ([1, 2, 3, 4, 6, 7] : List ℕ),
        ([1, 2, 3, 4, 6, 7] : List ℕ).indexOf o + 1 = j' := by decide
    obtain ⟨o, ho, hoj⟩ := hsurj j (by omega) hj1
    have hoprops : ∀ o' ∈ ([1, 2, 3, 4, 6, 7] : List ℕ),
        1 ≤ o' ∧ o' ≤ 7 ∧ o' ≠ 5 := by decide
    obtain ⟨ho1, ho7, ho5⟩ := hoprops o ho
    obtain ⟨p, hpa, hpo⟩ := H2 o (by omega) ho1
    have hpf : p ∈ filterAtlas atlas 5 :=
      List.mem_filter.mpr ⟨hpa, by simpa [hpo] using ho5⟩
    refine ⟨(p.1, old_to_new_id_map (sortedUniqueIds (filterAtlas atlas 5)) p.2), ?_, ?_⟩
    · simp only [remapAtlas]
      exact List.mem_map.mpr ⟨p, hpf, rfl⟩
    · simp only [old_to_new_id_map, hids, hpo]
      exact hoj
  · intro p hp q hq hlt
    have hp2 : p.2 ∈ ([1, 2, 3, 4, 6, 7] : List ℕ) :=
      hS_sub p.2 (List.mem_map.mpr ⟨p, hp, rfl⟩)
    have hq2 : q.2 ∈ ([1, 2, 3, 4, 6, 7] : List ℕ) :=
      hS_sub q.2 (List.mem_map.mpr ⟨q, hq, rfl⟩)
    have hmono : ∀ a ∈ ([1, 2, 3, 4, 6, 7] : List ℕ),
        ∀ b ∈ ([1, 2, 3, 4, 6, 7] : List ℕ), a < b →
        ([1, 2, 3, 4, 6, 7] : List ℕ).indexOf a <
          ([1, 2, 3, 4, 6, 7] : List ℕ).indexOf b := by decide
    simp only [old_to_new_id_map, hids]
    have := hmono p.2 hp2 q.2 hq2 hlt
    omega

/-- Witness for C4: the minimal populated 7-network atlas with one region
per network. -/
theorem noLIM_renumbering_witness :
    limbic_id = 5 ∧
    sortedUniqueIds (filterAtlas [(1, 1), (2, 2), (3, 3), (4, 4), (5, 5), (6, 6), (7, 7)]
      limbic_id) = [1, 2, 3, 4, 6, 7] ∧
    (∀ p ∈ filterAtlas [(1, 1), (2, 2), (3, 3), (4, 4), (5, 5), (6, 6), (7, 7)] limbic_id,
      p.2 ≠ limbic_id) ∧
    (∀ p ∈ remapAtlas [(1, 1), (2, 2), (3, 3), (4, 4), (5, 5), (6, 6), (7, 7)] limbic_id,
      1 ≤ p.2 ∧ p.2 ≤ 6) ∧
    (∀ j, 1 ≤ j → j ≤ 6 →
      ∃ p ∈ remapAtlas [(1, 1), (2, 2), (3, 3), (4, 4), (5, 5), (6, 6), (7, 7)] limbic_id,
        p.2 = j) ∧
    (∀ p ∈ filterAtlas [(1, 1), (2, 2), (3, 3), (4, 4), (5, 5), (6, 6), (7, 7)] limbic_id,
      ∀ q ∈ filterAtlas [(1, 1), (2, 2), (3, 3), (4, 4), (5, 5), (6, 6), (7, 7)] limbic_id,
      p.2 < q.2 →
      old_to_new_id_map (sortedUniqueIds (filterAtlas
        [(1, 1), (2, 2), (3, 3), (4, 4), (5, 5), (6, 6), (7, 7)] limbic_id)) p.2 <
        old_to_new_id_map (sortedUniqueIds (filterAtlas
          [(1, 1), (2, 2), (3, 3), (4, 4), (5, 5), (6, 6), (7, 7)] limbic_id)) q.2) ∧
    noLIM_nlabels = 7 :=
  noLIM_renumbering [(1, 1), (2, 2), (3, 3), (4, 4), (5, 5), (6, 6), (7, 7)]
    (by decide) (by decide)

theorem count_true_map (l : List ℤ) (f : ℤ → Bool) : (l.map f).count true = l.countP f := by
  induction l with
  | nil => simp
  | cons x xs ih =>
    simp only [List.map_cons, List.count_cons, List.countP_cons, ih]
    cases hfx : f x <;> simp [hfx]

theorem allNaN_replicate_zero (R : ℕ) (hR : 0 < R) :
    allNaN (List.replicate R (some (0 : ℚ))) = false := by
  cases R with
  | zero => omega
  | succ n => simp [allNaN, List.replicate_succ]

/-- C9, counterexample: in `extract_brain_states.py` the aggregation loop
has no NaN guard — on a one-timepoint, one-region activity matrix whose
single value is NaN, state 1 occurs, its mean state map is entirely NaN,
and it is stored in the table rather than dropped. -/
theorem stateMap_NaN_kept_LIM :
    subjectTable_LIM [[none]] [1] ["Vis"] 1 = [("Vis", [none])] ∧
    allNaN [none] = true := by
  constructor
  · rfl
  · rfl

/-- C9, amended (the noLIM aggregator `extract_brain_states_noLIM.py`):
every stored state map is not entirely NaN — an entirely-NaN mean state
map is dropped by the `np.all(np.isnan(...))` guard rather than stored —
and a state with zero occurrences contributes exactly the all-zero vector
of length `R` to the per-subject output (stored, since `R > 0` makes it
not entirely NaN).  In the unfiltered `extract_brain_states.py` variant
every state map is stored unconditionally, including entirely-NaN ones. -/
theorem stateMap_aggregator_noLIM (ttss : List (List (Option ℚ)))
    (time_labels : List ℤ) (labels : List String) (R : ℕ) (hR : 0 < R) :
    (∀ e ∈ subjectTable_noLIM ttss time_labels labels R, allNaN e.2 = false) ∧
    (∀ i, i < labels.length → time_labels.count ((i : ℤ) + 1) = 0 →
      state_mean ttss (mask_of time_labels (i + 1)) R = List.replicate R (some 0) ∧
      (labels.getD i "", List.replicate R (some (0 : ℚ))) ∈
        subjectTable_noLIM ttss time_labels labels R) := by
  constructor
  · intro e he
    obtain ⟨a, _, hfa⟩ := List.mem_filterMap.mp he
    by_cases hnan : allNaN (state_mean ttss (mask_of time_labels (a.1 + 1)) R) = true
    · simp only [subjectTable_noLIM] at hfa
      rw [if_pos hnan] at hfa
      exact absurd hfa (by simp)
    · simp only [subjectTable_noLIM] at hfa
      rw [if_neg hnan] at hfa
      have hpair : (a.2, state_mean ttss (mask_of time_labels (a.1 + 1)) R) = e :=
        Option.some.inj hfa
      rw [← hpair]
      exact Bool.eq_false_iff.mpr hnan
  · intro i hi habs
    have hmask : (mask_of time_labels (i + 1)).count true = 0 := by
      rw [mask_of, count_true_map]
      have : time_labels.countP (fun x => decide (x = ((i + 1 : ℕ) : ℤ))) =
          time_labels.count (((i + 1 : ℕ) : ℤ)) := by
        rw [List.count_eq_countP]
        apply List.countP_congr
        intro x _
        simp
      rw [this]
      have hcast : ((i + 1 : ℕ) : ℤ) = (i : ℤ) + 1 := by push_cast; ring
      rw [hcast]
      exact habs
    have hsm : state_mean ttss (mask_of time_labels (i + 1)) R =
        List.replicate R (some 0) := by
      rw [state_mean, if_neg (by omega)]
    refine ⟨hsm, ?_⟩
    apply List.mem_filterMap.mpr
    refine ⟨(i, labels.getD i ""), ?_, ?_⟩
    · have := List.getD_eq_getElem labels "" hi
      rw [this]
      rw [List.mem_enum_iff_getElem?]
      simp [List.getElem?_eq_getElem hi]
    · simp only [subjectTable_noLIM, hsm]
      rw [if_neg (by rw [allNaN_replicate_zero R hR]; simp)]

/-- Witness for the amended C9: a two-label configuration where state 2
(label "NOTA") never occurs in `[1]` and is stored as the all-zero
one-region vector. -/
theorem stateMap_aggregator_noLIM_witness :
    (∀ e ∈ subjectTable_noLIM [[some 1]] [1] ["Vis", "NOTA"] 1, allNaN e.2 = false) ∧
    (∀ i, i < (["Vis", "NOTA"] : List String).length →
      ([1] : List ℤ).count ((i : ℤ) + 1) = 0 →
      state_mean [[some 1]] (mask_of [1] (i + 1)) 1 = List.replicate 1 (some 0) ∧
      ((["Vis", "NOTA"] : List String).getD i "", List.replicate 1 (some (0 : ℚ))) ∈
        subjectTable_noLIM [[some 1]] [1] ["Vis", "NOTA"] 1) :=
  stateMap_aggregator_noLIM [[some 1]] [1] ["Vis", "NOTA"] 1 (by norm_num)

/-- Witness for C1: a two-network dataframe where network 1 wins. -/
theorem tr_net_labels_correct_witness :
    (∃ k, 1 ≤ k ∧ k < 3 ∧ tr_net_labels [(1, 2), (2, 1)] 3 0 = k ∧
      (0 : ℚ) ≤ netMean [(1, 2), (2, 1)] k ∧
      (∀ j, 1 ≤ j → j < 3 → netMean [(1, 2), (2, 1)] j ≤ netMean [(1, 2), (2, 1)] k) ∧
      (∀ j, 1 ≤ j → j < k → netMean [(1, 2), (2, 1)] j < netMean [(1, 2), (2, 1)] k)) ∨
    (tr_net_labels [(1, 2), (2, 1)] 3 0 = 3 ∧
      ∀ j, 1 ≤ j → j < 3 → netMean [(1, 2), (2, 1)] j < (0 : ℚ)) :=
  tr_net_labels_correct [(1, 2), (2, 1)] 3 0 (by norm_num)
    (by decide)
